import Mathlib

/-!
Shallow embedding of the configcat deferred-result primitive
(`async_result.go`) and of the manual polling policy that consumes it.

The Go `asyncResult` struct embeds an `*async` base object (the
"Completion Signal" of the spec).  The `async` type itself is not part of
the sources, so its two operations (`accept` and `complete`) are modelled
from the spec, section 4.1; everything else is translated directly from
`async_result.go` and the manual polling policy file.

Modelling choices:
  * Continuations are deep-embedded (`Cont`) so that invocations can be
    counted.  Running an operation returns, besides the new state, the
    ordered list of observable `Event`s it produced (payload write, channel
    closes, continuation invocations), in source order.
  * Go `interface\x7b\x7d` payloads become the inductive `Value`; the Go
    type assertion `result.(FetchResponse)` becomes a match on `Value`
    that produces a `GoPanic` on any other constructor.
  * The `done` channel is modelled by its only observable aspect, whether
    it has been closed.
-/

namespace Configcat

/-- A Go `interface\x7b\x7d` payload value, covering the payload shapes the
repository uses: strings (configuration bodies), fetch responses, and the
`nil` zero value an unset `result` field holds. -/
inductive Value where
  | nil : Value
  | str (s : String) : Value
  | fetch (body : String) (fetched : Bool) : Value
deriving DecidableEq, Repr

/-- Modelled from the spec, section 6: the missing `FetchResponse` record of
the repository, exposing a success flag and a body. `IsFetched()` reads the
flag. -/
structure FetchResponse where
  fetched : Bool
  body : String
deriving DecidableEq, Repr

/-- Modelled from the spec, section 6: `FetchResponse.IsFetched()`. -/
def FetchResponse.isFetchedFlag (r : FetchResponse) : Bool := r.fetched

/-- Wrap a `FetchResponse` as an opaque payload value. -/
def FetchResponse.toValue (r : FetchResponse) : Value := Value.fetch r.body r.fetched

/-- A deep-embedded continuation: either the single chain link that an
`applyThen` call registers (its body runs the transform and completes the
new deferred result), or an opaque user callback identified by a number. -/
inductive Cont where
  | chainLink : Cont
  | user (id : Nat) : Cont
deriving DecidableEq, Repr

/-- An observable step performed by an operation, recorded in source order. -/
inductive Event where
  | setResult (v : Value) : Event
  | closeADone : Event
  | closeDone : Event
  | invoke (c : Cont) (v : Value) : Event
deriving DecidableEq, Repr

/-- State value `pending` of the one-shot state machine. -/
def pending : Nat := 0

/-- State value `completed` of the one-shot state machine. -/
def completed : Nat := 1

/-- The `asyncResult` struct of `async_result.go`, with its embedded `async`
base flattened in (fields with an `a` name those of the base object). -/
structure ARState where
  state : Nat
  completions : List Cont
  doneClosed : Bool
  result : Value
  aState : Nat
  aCompletions : List Cont
  aDoneClosed : Bool
deriving DecidableEq, Repr

/-- `newAsyncResult` of `async_result.go`: pending, empty continuation
lists, open channels, `nil` payload. -/
def newAsyncResult : ARState :=
  { state := pending, completions := [], doneClosed := false, result := Value.nil,
    aState := pending, aCompletions := [], aDoneClosed := false }

/-- Modelled from the spec, section 4.1 (`register`), for the missing
`async.accept`: if the base signal is already completed the continuation is
invoked immediately on the calling thread instead of being stored;
otherwise it is appended to the continuation list.  The closure built by
`asyncResult.accept` reads the owner payload at invocation time, so an
immediate invocation carries the current `result` field. -/
def asyncAccept (s : ARState) (c : Cont) : ARState × List Event :=
  if s.aState = completed then
    (s, [Event.invoke c s.result])
  else
    ({ s with aCompletions := s.aCompletions ++ [c] }, [])

/-- `asyncResult.accept` of `async_result.go`: wraps a payload-consuming
continuation into a zero-argument closure reading `asyncResult.result` and
registers it on the embedded base signal. -/
def accept (s : ARState) (c : Cont) : ARState × List Event :=
  asyncAccept s c

/-- Modelled from the spec, section 4.1 (`complete`), for the missing
`async.complete`: exactly one caller wins the pending-to-completed
transition; the winner closes the broadcast channel, invokes every stored
continuation in registration order, then clears the list; losers are
no-ops.  The stored closures read the owner payload at invocation time. -/
def asyncComplete (s : ARState) : ARState × List Event :=
  if s.aState = pending then
    ({ s with aState := completed, aDoneClosed := true, aCompletions := [] },
      Event.closeADone :: s.aCompletions.map (fun c => Event.invoke c s.result))
  else
    (s, [])

/-- `asyncResult.complete` of `async_result.go`: a CAS on `state` picks the
winner, which stores the payload, completes the base signal, closes `done`
and invokes the value-level continuation list; in every case the
value-level continuation list is then set to nil. -/
def complete (s : ARState) (v : Value) : ARState × List Event :=
  if s.state = pending then
    let s1 := { s with state := completed, result := v }
    let p := asyncComplete s1
    let s2 := { p.1 with doneClosed := true }
    let invEvs := s1.completions.map (fun c => Event.invoke c v)
    ({ s2 with completions := [] },
      Event.setResult v :: p.2 ++ [Event.closeDone] ++ invEvs)
  else
    ({ s with completions := [] }, [])

/-- `asCompletedAsyncResult` of `async_result.go`: a fresh deferred result,
immediately completed. -/
def asCompletedAsyncResult (v : Value) : ARState :=
  (complete newAsyncResult v).1

/-- `asyncResult.get` of `async_result.go`: blocks on the `done` channel and
then returns the payload.  `none` models a still-blocked call. -/
def get (s : ARState) : Option Value :=
  if s.doneClosed then some s.result else none

/-- The Go error value `errors.New("operation cancelled")` that
`getOrTimeout` returns on the timer branch. -/
structure GoError where
  message : String
deriving DecidableEq, Repr

/-- `asyncResult.getOrTimeout` of `async_result.go`, on a timed run: the
deferred result is pending when the wait starts and is completed (by some
other thread) with the given value at the given time, or never (`none`).
The select takes the `done` branch when completion happens strictly before
the timer fires, otherwise the timer branch yields `nil` and the
cancellation error.  The completion itself happens either way; the third
component is the state of the instance after the run. -/
def getOrTimeout (s : ARState) (compl : Option (Nat × Value)) (d : Nat) :
    Option Value × Option GoError × ARState :=
  match compl with
  | some (t, v) =>
      let s1 := (complete s v).1
      if t < d then (some s1.result, none, s1)
      else (none, some { message := "operation cancelled" }, s1)
  | none => (none, some { message := "operation cancelled" }, s)

/-- One step of interpreting the event stream of a source completion inside
an `applyThen` chain: an invocation of the chain link runs the transform on
the delivered payload and completes the target deferred result with the
transform output (the body of the closure `applyThen` registers); every
other event has no effect on the target.  The accumulator carries the
target state and the list of arguments the transform has received. -/
def runChainStep (f : Value → Value) (acc : ARState × List Value) (e : Event) :
    ARState × List Value :=
  match e with
  | Event.invoke Cont.chainLink x => ((complete acc.1 (f x)).1, acc.2 ++ [x])
  | _ => acc

/-- Interpret a whole event stream against the target of an `applyThen`
chain. -/
def runChain (f : Value → Value) (tgt : ARState) (evs : List Event) :
    ARState × List Value :=
  evs.foldl (runChainStep f) (tgt, [])

/-- The configuration of one `applyThen` chain link: the source, the new
deferred result handed back to the caller, and the arguments the transform
has been invoked with so far. -/
structure ChainState where
  src : ARState
  tgt : ARState
  fArgs : List Value
deriving DecidableEq, Repr

/-- `asyncResult.applyThen` of `async_result.go`: create a fresh deferred
result, register (via `accept`) a continuation on the source that runs the
transform on the source payload and completes the new result with its
output, and hand the new result back.  If the source is already completed
the registration invokes the continuation immediately, so the transform
runs and the new result completes before `applyThen` returns. -/
def applyThen (f : Value → Value) (src : ARState) : ChainState :=
  let tgt := newAsyncResult
  let p := accept src Cont.chainLink
  let q := runChain f tgt p.2
  { src := p.1, tgt := q.1, fArgs := q.2 }

/-- A later `complete` on the source of an `applyThen` chain: the source
completes with the given value, and each resulting invocation of the
registered chain link runs the transform and completes the target. -/
def chainComplete (f : Value → Value) (cs : ChainState) (v : Value) : ChainState :=
  let p := complete cs.src v
  let q := runChain f cs.tgt p.2
  { src := p.1, tgt := q.1, fArgs := cs.fArgs ++ q.2 }

/-- A serialized run of several `complete` calls against one instance (any
interleaving of concurrent callers serializes at the CAS, which is the only
decision point).  Returns the final state and how many calls won the CAS. -/
def completeRun : ARState → List Value → ARState × Nat
  | s, [] => (s, 0)
  | s, v :: vs =>
      let p := completeRun (complete s v).1 vs
      (p.1, (if s.state = pending then 1 else 0) + p.2)

/-- Go panic values the policy transform can raise. -/
inductive GoPanic where
  | typeAssertion : GoPanic
deriving DecidableEq, Repr

/-- Test whether a payload value is a `FetchResponse`. -/
def isFetchResponseValue : Value → Bool
  | Value.fetch _ _ => true
  | _ => false

/-- The transform closure that `GetConfigurationAsync` of the manual polling
policy passes to `ApplyThen`: assert the payload is a `FetchResponse`
(panicking otherwise), read the cached value from the store; on a fetched
response, write the body to the store when it differs from the cache and
return the body; otherwise return the cached value.  Returns the new store
contents, the list of `Store.Set` calls made, and the returned payload. -/
def policyTransform (store : String) (result : Value) :
    Except GoPanic (String × List String × Value) :=
  match result with
  | Value.fetch body fetchedFlag =>
      let cached := store
      if fetchedFlag then
        let fetched := body
        if cached ≠ fetched then
          Except.ok (fetched, [fetched], Value.str fetched)
        else
          Except.ok (cached, [], Value.str fetched)
      else
        Except.ok (cached, [], Value.str cached)
  | _ => Except.error GoPanic.typeAssertion

/-- `GetConfigurationAsync` of the manual polling policy: ask the fetcher
for its deferred result (modelled from the spec, section 6, as an already
completed deferred result holding the given payload) and chain the policy
transform onto it with `ApplyThen`.  Because the transform also writes the
store, the chain link is instantiated here directly: the source being
completed, registration invokes the transform immediately and the returned
deferred result completes with its output before the call returns.
Returns the new store contents, the `Store.Set` calls, and the deferred
result handed to the caller; a payload that is not a `FetchResponse` makes
the transform panic. -/
def GetConfigurationAsync (store : String) (fetcherPayload : Value) :
    Except GoPanic (String × List String × ARState) :=
  let src := asCompletedAsyncResult fetcherPayload
  match policyTransform store src.result with
  | Except.ok (store1, sets, ret) =>
      Except.ok (store1, sets, (complete newAsyncResult ret).1)
  | Except.error p => Except.error p

/-- The successful run of `GetConfigurationAsync` on a genuine
`FetchResponse` payload. -/
def policyRun (store : String) (resp : FetchResponse) :
    String × List String × ARState :=
  match policyTransform store resp.toValue with
  | Except.ok out => (out.1, out.2.1, (complete newAsyncResult out.2.2).1)
  | Except.error _ => (store, [], newAsyncResult)

/-! ## Helper lemmas -/

lemma asyncComplete_fst_state (s : ARState) : (asyncComplete s).1.state = s.state := by
  unfold asyncComplete; split <;> rfl

lemma asyncComplete_fst_result (s : ARState) : (asyncComplete s).1.result = s.result := by
  unfold asyncComplete; split <;> rfl

lemma asyncComplete_fst_completions (s : ARState) :
    (asyncComplete s).1.completions = s.completions := by
  unfold asyncComplete; split <;> rfl

lemma complete_win_state (s : ARState) (v : Value) (h : s.state = pending) :
    (complete s v).1.state = completed := by
  simp only [complete, h, if_pos]
  rw [asyncComplete_fst_state]

lemma complete_win_result (s : ARState) (v : Value) (h : s.state = pending) :
    (complete s v).1.result = v := by
  simp only [complete, h, if_pos]
  rw [asyncComplete_fst_result]

lemma complete_win_done (s : ARState) (v : Value) (h : s.state = pending) :
    (complete s v).1.doneClosed = true := by
  simp only [complete, h, if_pos]

lemma complete_win_completions (s : ARState) (v : Value) (h : s.state = pending) :
    (complete s v).1.completions = [] := by
  simp only [complete, h, if_pos]

lemma complete_lose (s : ARState) (v : Value) (h : s.state = completed) :
    complete s v = ({ s with completions := [] }, []) := by
  have hnp : ¬ s.state = pending := by rw [h]; decide
  simp only [complete, hnp, if_neg, ite_false]

lemma complete_win_events (s : ARState) (v : Value) (h : s.state = pending) :
    (complete s v).2 =
      Event.setResult v ::
        ((asyncComplete { s with state := completed, result := v }).2
          ++ [Event.closeDone]
          ++ s.completions.map (fun c => Event.invoke c v)) := by
  rw [complete, if_pos h]
  simp

lemma complete_fst_completions_nil (s : ARState) (v : Value) :
    (complete s v).1.completions = [] := by
  unfold complete; split <;> rfl

lemma asyncComplete_events_invoke (s : ARState) (c : Cont) (x : Value)
    (hx : Event.invoke c x ∈ (asyncComplete s).2) : x = s.result := by
  unfold asyncComplete at hx
  split at hx
  · rcases List.mem_cons.mp hx with h1 | h2
    · exact absurd h1 (by simp)
    · rcases List.mem_map.mp h2 with ⟨a, _, ha⟩
      exact (Event.invoke.injEq _ _ _ _ ▸ ha).2.symm ▸ rfl
  · exact absurd hx (List.not_mem_nil _)

/-! ## Claim theorems -/

/-- C1: on a pending asyncResult, after complete(v1) followed by
complete(v2) the stored payload is v1 (get returns v1), and the later call
produces no events at all, so it invokes no registered continuation. -/
theorem complete_duplicate_call_keeps_first_payload (s : ARState) (v1 v2 : Value)
    (h : s.state = pending) :
    (complete (complete s v1).1 v2).1.result = v1 ∧
    get (complete (complete s v1).1 v2).1 = some v1 ∧
    (complete (complete s v1).1 v2).2 = [] := by
  have h1 : (complete s v1).1.state = completed := complete_win_state s v1 h
  rw [complete_lose (complete s v1).1 v2 h1]
  refine ⟨complete_win_result s v1 h, ?_, rfl⟩
  simp [get, complete_win_done s v1 h, complete_win_result s v1 h]

theorem complete_duplicate_call_keeps_first_payload_witness :
    (complete (complete newAsyncResult (Value.str "a")).1 (Value.str "b")).1.result
        = Value.str "a" ∧
    get (complete (complete newAsyncResult (Value.str "a")).1 (Value.str "b")).1
        = some (Value.str "a") ∧
    (complete (complete newAsyncResult (Value.str "a")).1 (Value.str "b")).2 = [] :=
  complete_duplicate_call_keeps_first_payload newAsyncResult
    (Value.str "a") (Value.str "b") rfl

/-- C5: a further complete(v) on an asyncResult already in the completed
state is a no-op: no field changes, no event is produced.  In every
reachable completed state the value-level continuation list is already nil
(lemma complete_fst_completions_nil), which the second hypothesis
records. -/
theorem complete_on_completed_is_noop (s : ARState) (v : Value)
    (h1 : s.state = completed) (h2 : s.completions = []) :
    complete s v = (s, []) := by
  rw [complete_lose s v h1, ← h2]

theorem complete_on_completed_is_noop_witness :
    complete (asCompletedAsyncResult (Value.str "a")) (Value.str "b") =
      (asCompletedAsyncResult (Value.str "a"), []) :=
  complete_on_completed_is_noop (asCompletedAsyncResult (Value.str "a"))
    (Value.str "b") rfl rfl

/-- C7: asCompletedAsyncResult v is exactly newAsyncResult followed by
complete(v); the constructed object is in the completed state with payload
v, and get on it returns v without blocking. -/
theorem asCompletedAsyncResult_equals_new_then_complete (v : Value) :
    asCompletedAsyncResult v = (complete newAsyncResult v).1 ∧
    (asCompletedAsyncResult v).state = completed ∧
    (asCompletedAsyncResult v).result = v ∧
    get (asCompletedAsyncResult v) = some v :=
  ⟨rfl, rfl, rfl, rfl⟩

/-- C10: in a winning complete(v), the payload write is the first event of
the call (before the done channel closes and before any continuation runs),
every continuation invocation carries exactly v, and a get or an unblocked
getOrTimeout on the instance observes v. -/
theorem complete_writes_payload_before_signalling (s : ARState) (v : Value)
    (h : s.state = pending) :
    (complete s v).2.head? = some (Event.setResult v) ∧
    (∀ c x, Event.invoke c x ∈ (complete s v).2 → x = v) ∧
    get (complete s v).1 = some v ∧
    (∀ t d, t < d → (getOrTimeout s (some (t, v)) d).1 = some v) := by
  refine ⟨?_, ?_, ?_, ?_⟩
  · rw [complete_win_events s v h]
    rfl
  · intro c x hx
    rw [complete_win_events s v h] at hx
    rcases List.mem_cons.mp hx with h1 | h2
    · exact absurd h1 (by simp)
    · rcases List.mem_append.mp h2 with h3 | h4
      · rcases List.mem_append.mp h3 with h5 | h6
        · exact asyncComplete_events_invoke _ c x h5
        · exact absurd (List.mem_singleton.mp h6) (by simp)
      · rcases List.mem_map.mp h4 with ⟨a, _, ha⟩
        exact ((Event.invoke.injEq _ _ _ _).mp ha).2.symm
  · simp [get, complete_win_done s v h, complete_win_result s v h]
  · intro t d htd
    simp [getOrTimeout, htd, complete_win_result s v h]

theorem complete_writes_payload_before_signalling_witness :
    (complete newAsyncResult (Value.str "a")).2.head?
        = some (Event.setResult (Value.str "a")) ∧
    get (complete newAsyncResult (Value.str "a")).1 = some (Value.str "a") :=
  ⟨(complete_writes_payload_before_signalling newAsyncResult (Value.str "a") rfl).1,
   (complete_writes_payload_before_signalling newAsyncResult (Value.str "a") rfl).2.2.1⟩

/-- C3: getOrTimeout returns the payload and no error when completion comes
strictly before the deadline; it returns no value and the cancellation
error when the deadline passes before completion; and a later get on the
same instance, by then completed, still returns the payload. -/
theorem getOrTimeout_deadline_behavior (s : ARState) (v : Value) (t d : Nat)
    (h : s.state = pending) :
    (t < d →
      (getOrTimeout s (some (t, v)) d).1 = some v ∧
      (getOrTimeout s (some (t, v)) d).2.1 = none) ∧
    (d < t →
      (getOrTimeout s (some (t, v)) d).1 = none ∧
      (getOrTimeout s (some (t, v)) d).2.1
          = some { message := "operation cancelled" }) ∧
    get (getOrTimeout s (some (t, v)) d).2.2 = some v := by
  refine ⟨?_, ?_, ?_⟩
  · intro htd
    simp [getOrTimeout, htd, complete_win_result s v h]
  · intro hdt
    have htd : ¬ t < d := by omega
    simp [getOrTimeout, htd]
  · by_cases htd : t < d <;>
      simp [getOrTimeout, htd, get, complete_win_done s v h,
        complete_win_result s v h]

theorem getOrTimeout_deadline_behavior_witness :
    (getOrTimeout newAsyncResult (some (1, Value.str "a")) 5).1
        = some (Value.str "a") ∧
    (getOrTimeout newAsyncResult (some (7, Value.str "a")) 5).2.1
        = some { message := "operation cancelled" } ∧
    get (getOrTimeout newAsyncResult (some (7, Value.str "a")) 5).2.2
        = some (Value.str "a") :=
  ⟨((getOrTimeout_deadline_behavior newAsyncResult (Value.str "a") 1 5 rfl).1
      (by decide)).1,
   ((getOrTimeout_deadline_behavior newAsyncResult (Value.str "a") 7 5 rfl).2.1
      (by decide)).2,
   (getOrTimeout_deadline_behavior newAsyncResult (Value.str "a") 7 5 rfl).2.2⟩

lemma asyncComplete_win_events (s : ARState) (h : s.aState = pending) :
    (asyncComplete s).2 =
      Event.closeADone :: s.aCompletions.map (fun c => Event.invoke c s.result) := by
  rw [asyncComplete, if_pos h]

lemma runChainStep_skip (f : Value → Value) (acc : ARState × List Value)
    (c : Cont) (hc : c ≠ Cont.chainLink) (x : Value) :
    runChainStep f acc (Event.invoke c x) = acc := by
  cases c with
  | chainLink => exact absurd rfl hc
  | user i => rfl

lemma foldl_runChainStep_skip (f : Value → Value) (l : List Cont) (x : Value)
    (h : Cont.chainLink ∉ l) (acc : ARState × List Value) :
    List.foldl (runChainStep f) acc (l.map (fun c => Event.invoke c x)) = acc := by
  induction l generalizing acc with
  | nil => rfl
  | cons c cs ih =>
      have hc : c ≠ Cont.chainLink := by
        intro he; subst he; exact h (List.mem_cons_self _ _)
      have hcs : Cont.chainLink ∉ cs := fun hm => h (List.mem_cons_of_mem _ hm)
      simp only [List.map_cons, List.foldl_cons, runChainStep_skip f acc c hc x]
      exact ih hcs acc

lemma runChain_complete_events (f : Value → Value) (src tgt : ARState) (x : Value)
    (h1 : src.state = pending) (h2 : src.aState = pending)
    (h4 : src.completions = []) (l : List Cont)
    (hl : src.aCompletions = l ++ [Cont.chainLink]) (h3 : Cont.chainLink ∉ l) :
    runChain f tgt (complete src x).2 = ((complete tgt (f x)).1, [x]) := by
  rw [runChain, complete_win_events src x h1]
  have ha : (asyncComplete { src with state := completed, result := x }).2 =
      Event.closeADone :: (l ++ [Cont.chainLink]).map (fun c => Event.invoke c x) := by
    rw [asyncComplete_win_events { src with state := completed, result := x } h2]
    simp only []
    rw [hl]
  rw [ha, h4]
  simp only [List.map_append, List.map_cons, List.map_nil, List.foldl_cons,
    List.foldl_append, List.foldl_nil]
  rw [foldl_runChainStep_skip f l x h3]
  rfl

/-- C2: on a pending source, applyThen(f) invokes no transform before the
source completes (the new deferred result is still pending too); once the
source completes with x, the new deferred result completes with f(x), and
f has been invoked exactly once, on x. -/
theorem applyThen_completes_with_transform (f : Value → Value) (src : ARState)
    (x : Value) (h1 : src.state = pending) (h2 : src.aState = pending)
    (h3 : Cont.chainLink ∉ src.aCompletions) (h4 : src.completions = []) :
    (applyThen f src).fArgs = [] ∧
    (applyThen f src).tgt.state = pending ∧
    (chainComplete f (applyThen f src) x).fArgs = [x] ∧
    (chainComplete f (applyThen f src) x).tgt.state = completed ∧
    (chainComplete f (applyThen f src) x).tgt.result = f x ∧
    get (chainComplete f (applyThen f src) x).tgt = some (f x) := by
  have hne : ¬ src.aState = completed := by rw [h2]; decide
  have hacc : applyThen f src =
      { src := { src with aCompletions := src.aCompletions ++ [Cont.chainLink] },
        tgt := newAsyncResult, fArgs := [] } := by
    simp [applyThen, accept, asyncAccept, hne, runChain]
  have hrun := runChain_complete_events f
      { src with aCompletions := src.aCompletions ++ [Cont.chainLink] }
      newAsyncResult x h1 h2 h4 src.aCompletions rfl h3
  have hchain : chainComplete f (applyThen f src) x =
      { src := (complete
          { src with aCompletions := src.aCompletions ++ [Cont.chainLink] } x).1,
        tgt := (complete newAsyncResult (f x)).1, fArgs := [x] } := by
    rw [hacc]
    unfold chainComplete
    simp [hrun]
  rw [hchain, hacc]
  exact ⟨rfl, rfl, rfl, rfl, rfl, rfl⟩

theorem applyThen_completes_with_transform_witness :
    (applyThen (fun _ => Value.str "t") newAsyncResult).fArgs = [] ∧
    (applyThen (fun _ => Value.str "t") newAsyncResult).tgt.state = pending ∧
    (chainComplete (fun _ => Value.str "t")
        (applyThen (fun _ => Value.str "t") newAsyncResult)
        (Value.str "x")).fArgs = [Value.str "x"] ∧
    (chainComplete (fun _ => Value.str "t")
        (applyThen (fun _ => Value.str "t") newAsyncResult)
        (Value.str "x")).tgt.state = completed ∧
    (chainComplete (fun _ => Value.str "t")
        (applyThen (fun _ => Value.str "t") newAsyncResult)
        (Value.str "x")).tgt.result = (fun _ => Value.str "t") (Value.str "x") ∧
    get (chainComplete (fun _ => Value.str "t")
        (applyThen (fun _ => Value.str "t") newAsyncResult)
        (Value.str "x")).tgt = some ((fun _ => Value.str "t") (Value.str "x")) :=
  applyThen_completes_with_transform (fun _ => Value.str "t") newAsyncResult
    (Value.str "x") rfl rfl (by decide) rfl

/-- C6: applyThen(f) on an already completed source whose payload is x runs
the transform immediately, inside the call: at the moment applyThen
returns, f has been invoked exactly once (on x), the returned new deferred
result is already completed with f(x), and the source is untouched. -/
theorem applyThen_on_completed_runs_synchronously (f : Value → Value)
    (src : ARState) (x : Value) (_hstate : src.state = completed)
    (h1 : src.aState = completed) (h2 : src.result = x) :
    (applyThen f src).src = src ∧
    (applyThen f src).fArgs = [x] ∧
    (applyThen f src).tgt.state = completed ∧
    (applyThen f src).tgt.result = f x ∧
    get (applyThen f src).tgt = some (f x) := by
  have hacc : applyThen f src =
      { src := src, tgt := (complete newAsyncResult (f x)).1, fArgs := [x] } := by
    simp [applyThen, accept, asyncAccept, h1, h2, runChain, runChainStep]
  rw [hacc]
  exact ⟨rfl, rfl, rfl, rfl, rfl⟩

theorem applyThen_on_completed_runs_synchronously_witness :
    (applyThen (fun _ => Value.str "t") (asCompletedAsyncResult (Value.str "x"))).src
        = asCompletedAsyncResult (Value.str "x") ∧
    (applyThen (fun _ => Value.str "t")
        (asCompletedAsyncResult (Value.str "x"))).fArgs = [Value.str "x"] ∧
    (applyThen (fun _ => Value.str "t")
        (asCompletedAsyncResult (Value.str "x"))).tgt.state = completed ∧
    (applyThen (fun _ => Value.str "t")
        (asCompletedAsyncResult (Value.str "x"))).tgt.result
        = (fun _ => Value.str "t") (Value.str "x") ∧
    get (applyThen (fun _ => Value.str "t")
        (asCompletedAsyncResult (Value.str "x"))).tgt
        = some ((fun _ => Value.str "t") (Value.str "x")) :=
  applyThen_on_completed_runs_synchronously (fun _ => Value.str "t")
    (asCompletedAsyncResult (Value.str "x")) (Value.str "x") rfl rfl rfl

lemma completeRun_after_completed (vs : List Value) (s : ARState)
    (h : s.state = completed) :
    (completeRun s vs).2 = 0 ∧
    (completeRun s vs).1.result = s.result ∧
    (completeRun s vs).1.state = s.state ∧
    (completeRun s vs).1.doneClosed = s.doneClosed := by
  induction vs generalizing s with
  | nil => exact ⟨rfl, rfl, rfl, rfl⟩
  | cons v vs ih =>
      have hnp : ¬ s.state = pending := by rw [h]; decide
      have hl : (complete s v).1 = { s with completions := [] } := by
        rw [complete_lose s v h]
      have ih2 := ih { s with completions := [] } h
      refine ⟨?_, ?_, ?_, ?_⟩ <;>
        simp_all [completeRun, hl, hnp]

/-- C8: any serialized order of N concurrent complete calls (the atomic CAS
in complete is the only decision point, so every interleaving serializes to
some such order) has exactly one winner, the first call in the order; get
afterwards returns that one value, and being a pure read it is stable
across repeated reads. -/
theorem concurrent_completes_exactly_one_wins (s : ARState) (v : Value)
    (vs : List Value) (h : s.state = pending) :
    (completeRun s (v :: vs)).2 = 1 ∧
    (completeRun s (v :: vs)).1.result = v ∧
    (completeRun s (v :: vs)).1.state = completed ∧
    get (completeRun s (v :: vs)).1 = some v := by
  have h1 : (complete s v).1.state = completed := complete_win_state s v h
  have hr := completeRun_after_completed vs (complete s v).1 h1
  have hres := complete_win_result s v h
  have hdone := complete_win_done s v h
  refine ⟨?_, ?_, ?_, ?_⟩ <;>
    simp_all [completeRun, get, h]

theorem concurrent_completes_exactly_one_wins_witness :
    (completeRun newAsyncResult [Value.str "a", Value.str "b", Value.str "c"]).2 = 1 ∧
    (completeRun newAsyncResult
        [Value.str "a", Value.str "b", Value.str "c"]).1.result = Value.str "a" ∧
    (completeRun newAsyncResult
        [Value.str "a", Value.str "b", Value.str "c"]).1.state = completed ∧
    get (completeRun newAsyncResult
        [Value.str "a", Value.str "b", Value.str "c"]).1 = some (Value.str "a") :=
  concurrent_completes_exactly_one_wins newAsyncResult (Value.str "a")
    [Value.str "b", Value.str "c"] rfl

lemma asCompletedAsyncResult_result (v : Value) :
    (asCompletedAsyncResult v).result = v := rfl

lemma get_complete_new (v : Value) :
    get (complete newAsyncResult v).1 = some v := rfl

/-- C4: on a fetch response, the deferred result that GetConfigurationAsync
hands back completes with the response body and the store is rewritten to
that body when the fetch succeeded and the body differs from the cache; it
completes with the body and no store write happens when the fetch succeeded
and the body equals the cache; and it completes with the cached value with
the store untouched when the fetch did not succeed. -/
theorem getConfigurationAsync_cache_logic (store : String) (resp : FetchResponse) :
    GetConfigurationAsync store resp.toValue = Except.ok (policyRun store resp) ∧
    (resp.fetched = true → resp.body ≠ store →
      (policyRun store resp).1 = resp.body ∧
      (policyRun store resp).2.1 = [resp.body] ∧
      get (policyRun store resp).2.2 = some (Value.str resp.body)) ∧
    (resp.fetched = true → resp.body = store →
      (policyRun store resp).1 = store ∧
      (policyRun store resp).2.1 = [] ∧
      get (policyRun store resp).2.2 = some (Value.str resp.body)) ∧
    (resp.fetched = false →
      (policyRun store resp).1 = store ∧
      (policyRun store resp).2.1 = [] ∧
      get (policyRun store resp).2.2 = some (Value.str store)) := by
  rcases resp with ⟨fetched, body⟩
  cases fetched <;> by_cases heq : body = store <;>
    simp_all [GetConfigurationAsync, policyRun, policyTransform,
      FetchResponse.toValue, asCompletedAsyncResult_result, get_complete_new,
      Ne, eq_comm]

theorem getConfigurationAsync_cache_logic_witness :
    (policyRun "v1" { fetched := true, body := "v2" }).1 = "v2" ∧
    (policyRun "v1" { fetched := true, body := "v2" }).2.1 = ["v2"] ∧
    get (policyRun "v1" { fetched := true, body := "v2" }).2.2
        = some (Value.str "v2") ∧
    (policyRun "v1" { fetched := true, body := "v1" }).2.1 = [] ∧
    (policyRun "v1" { fetched := false, body := "" }).1 = "v1" :=
  ⟨((getConfigurationAsync_cache_logic "v1" { fetched := true, body := "v2" }).2.1
      rfl (by decide)).1,
   ((getConfigurationAsync_cache_logic "v1" { fetched := true, body := "v2" }).2.1
      rfl (by decide)).2.1,
   ((getConfigurationAsync_cache_logic "v1" { fetched := true, body := "v2" }).2.1
      rfl (by decide)).2.2,
   ((getConfigurationAsync_cache_logic "v1" { fetched := true, body := "v1" }).2.2.1
      rfl rfl).2.1,
   ((getConfigurationAsync_cache_logic "v1" { fetched := false, body := "" }).2.2.2
      rfl).1⟩

/-- C9: the transform that GetConfigurationAsync chains onto the fetcher
result panics at the type assertion whenever the delivered payload is not a
FetchResponse (the whole chained computation then ends in that panic), and
it is well-defined (returns a value) exactly under the precondition that
the payload is a FetchResponse. -/
theorem policyTransform_type_assertion (store : String) (v : Value) :
    (isFetchResponseValue v = false →
      policyTransform store v = Except.error GoPanic.typeAssertion ∧
      GetConfigurationAsync store v = Except.error GoPanic.typeAssertion) ∧
    (isFetchResponseValue v = true →
      ∃ out, policyTransform store v = Except.ok out) := by
  cases v with
  | nil =>
      exact ⟨fun _ => ⟨rfl, rfl⟩, fun hf => by simp [isFetchResponseValue] at hf⟩
  | str s =>
      exact ⟨fun _ => ⟨rfl, rfl⟩, fun hf => by simp [isFetchResponseValue] at hf⟩
  | fetch body fl =>
      refine ⟨fun hf => by simp [isFetchResponseValue] at hf, fun _ => ?_⟩
      cases fl with
      | false => exact ⟨(store, [], Value.str store), rfl⟩
      | true =>
          by_cases heq : store = body
          · exact ⟨(store, [], Value.str body), by simp [policyTransform, heq]⟩
          · exact ⟨(body, [body], Value.str body), by simp [policyTransform, heq]⟩

theorem policyTransform_type_assertion_witness :
    (policyTransform "v1" (Value.str "bogus")
        = Except.error GoPanic.typeAssertion) ∧
    (GetConfigurationAsync "v1" (Value.str "bogus")
        = Except.error GoPanic.typeAssertion) :=
  (policyTransform_type_assertion "v1" (Value.str "bogus")).1 rfl

end Configcat
